import Mathlib

/-!
Verification of the cell transmission model implementation in `ctm.py`.

The embedding models the numeric state of the simulator over the exact
rationals `ℚ` (the Python code computes with IEEE doubles; every algebraic
identity proved here is exact, matching the specification phrase
"floating-point exact by construction of the algorithm").

Links are identified by their index into a `List Link` that plays the role
of the mutable heap of link objects: every node operation takes the list,
rewrites the transient flow fields of its incident links, and returns the
new list.  Fallible Python code (raised `ValueError`, `UserWarning`,
`SystemError`, `ZeroDivisionError`) is modelled with `Except CtmError`.
The one division that Python guards with a `density > 0` test (the demand
computation) is modelled as a checked division; the numpy array divisions
in the capacity-limiting pass never raise in Python (they produce
inf or nan under a warning) and are therefore modelled with the total
division of `ℚ`.
-/

/-- Error taxonomy of the core, mirroring the exception types raised by
`ctm.py`: `domain` for the `ValueError` of the fundamental diagram,
`topology` for the `UserWarning` raised on source and sink cardinality
violations, `conservation` for the `SystemError` raised by the
conservation check of `Node.compute_flows`, and `zeroDivision` for a
Python `ZeroDivisionError`. -/
inductive CtmError where
  | domain (msg : String)
  | topology (msg : String)
  | conservation (msg : String)
  | zeroDivision (msg : String)
  deriving DecidableEq, Repr

instance {ε α : Type} [DecidableEq ε] [DecidableEq α] : DecidableEq (Except ε α) := fun a b =>
  match a, b with
  | .error e1, .error e2 =>
    if h : e1 = e2 then .isTrue (by rw [h]) else .isFalse (by intro hc; cases hc; exact h rfl)
  | .error _, .ok _ => .isFalse (by intro hc; cases hc)
  | .ok _, .error _ => .isFalse (by intro hc; cases hc)
  | .ok v1, .ok v2 =>
    if h : v1 = v2 then .isTrue (by rw [h]) else .isFalse (by intro hc; cases hc; exact h rfl)

/-- Parameters of the triangular fundamental diagram, as stored by the
`FundamentalDiagram.__init__` constructor. -/
structure FundamentalDiagram where
  flow_capacity : ℚ
  critical_density : ℚ
  congestion_wave_speed : ℚ
  deriving DecidableEq, Inhabited, Repr

/-- Derived property `free_flow_speed = flow_capacity / critical_density`. -/
def FundamentalDiagram.free_flow_speed (fd : FundamentalDiagram) : ℚ :=
  fd.flow_capacity / fd.critical_density

/-- Derived property `jam_density = flow_capacity / congestion_wave_speed + critical_density`. -/
def FundamentalDiagram.jam_density (fd : FundamentalDiagram) : ℚ :=
  fd.flow_capacity / fd.congestion_wave_speed + fd.critical_density

/-- Flow at a given density, raising `ValueError` outside `[0, jam_density]`,
then the free-flow branch below the critical density and the congested
branch at or above it. -/
def FundamentalDiagram.flow_at_density (fd : FundamentalDiagram) (density : ℚ) :
    Except CtmError ℚ :=
  if density < 0 ∨ fd.jam_density < density then
    .error (.domain "Provided density value is invalid.")
  else if density < fd.critical_density then
    .ok (fd.free_flow_speed * density)
  else
    .ok (fd.flow_capacity - fd.congestion_wave_speed * (density - fd.critical_density))

/-- State of one `Link` object: its fundamental diagram, the persistent
density, the geometric length, and the two transient flow fields written
each step by the endpoint nodes.  The Python fields start as `None`; the
model only ever reads them after they have been written, so they are plain
rationals here. -/
structure Link where
  fundamental_diagram : FundamentalDiagram
  density : ℚ
  length : ℚ
  upstream_flow : ℚ
  downstream_flow : ℚ
  deriving DecidableEq, Inhabited, Repr

/-- Delegating property `Link.flow_capacity`. -/
def Link.flow_capacity (l : Link) : ℚ := l.fundamental_diagram.flow_capacity

/-- Delegating property `Link.critical_density`. -/
def Link.critical_density (l : Link) : ℚ := l.fundamental_diagram.critical_density

/-- Delegating property `Link.free_flow_speed`. -/
def Link.free_flow_speed (l : Link) : ℚ := l.fundamental_diagram.free_flow_speed

/-- Delegating property `Link.congestion_wave_speed`. -/
def Link.congestion_wave_speed (l : Link) : ℚ := l.fundamental_diagram.congestion_wave_speed

/-- Delegating property `Link.jam_density`. -/
def Link.jam_density (l : Link) : ℚ := l.fundamental_diagram.jam_density

/-- Discretized continuity equation of `Link.update_state`:
density becomes `density + (dt / length) * (upstream_flow - downstream_flow)`. -/
def Link.update_state (l : Link) (dt : ℚ) : Link :=
  { l with density := l.density + (dt / l.length) * (l.upstream_flow - l.downstream_flow) }

/-- Receiving capacity of a link, computed in step 1 of `Node.compute_flows`:
`min(flow_capacity, congestion_wave_speed * (jam_density - density))`. -/
def Link.supply (l : Link) : ℚ :=
  min l.flow_capacity (l.congestion_wave_speed * (l.jam_density - l.density))

/-- Value of the sending demand expression of step 3 of `Node.compute_flows`
(also used by `SinkNode.compute_flows`):
`free_flow_speed * density * (min(1, flow_capacity / (free_flow_speed * density)) if density > 0 else 1)`. -/
def Link.demandValue (l : Link) : ℚ :=
  if 0 < l.density then
    l.free_flow_speed * l.density * min 1 (l.flow_capacity / (l.free_flow_speed * l.density))
  else
    l.free_flow_speed * l.density * 1

/-- Sending demand with the division modelled as a checked Python float
division: when the guard `density > 0` is taken the divisor
`free_flow_speed * density` is divided by, and a zero divisor would raise
`ZeroDivisionError` in Python. -/
def Link.sendingDemand (l : Link) : Except CtmError ℚ :=
  if 0 < l.density then
    if l.free_flow_speed * l.density = 0 then
      .error (.zeroDivision "float division by zero")
    else
      .ok (l.free_flow_speed * l.density * min 1 (l.flow_capacity / (l.free_flow_speed * l.density)))
  else
    .ok (l.free_flow_speed * l.density * 1)

/-- Pointwise update of the link heap at one index, modelling the mutation
of a single link object; indices past the end leave the heap unchanged. -/
def modifyAt (f : Link → Link) : Nat → List Link → List Link
  | _, [] => []
  | 0, l :: ls => f l :: ls
  | i + 1, l :: ls => l :: modifyAt f i ls

/-- Ordinary `Node`: the incident links (as indices into the link heap) and
the split ratio matrix, rows indexed by incoming links and columns by
outgoing links. -/
structure Node where
  incoming_links : List Nat
  outgoing_links : List Nat
  split_ratio_matrix : List (List ℚ)
  deriving DecidableEq, Repr

/-- Entry `b[i, j]` of a split ratio matrix stored as a list of rows. -/
def matEntry (b : List (List ℚ)) (i j : Nat) : ℚ := (b.getD i []).getD j 0

/-- Step 4 of `Node.compute_flows`: the provisional inflow of outgoing link
`j`, the split-weighted column sum `sum(b[i, j] * d[i] for i in range(m))`. -/
def colSum (b : List (List ℚ)) (d : List ℚ) (j : Nat) : ℚ :=
  ((List.range d.length).map (fun i => matEntry b i j * d.getD i 0)).sum

/-- One round of the capacity-limiting loop (step 5 of `Node.compute_flows`)
for outgoing link `q`: demands with split ratio `0` toward `q` pass through
unchanged, all others are scaled by `min(1, supplies[q] / d_j[q, q])`. -/
def dStep (supplies : List ℚ) (b : List (List ℚ)) (d : List ℚ) (q : Nat) : List ℚ :=
  (List.range d.length).map (fun i =>
    if matEntry b i q = 0 then d.getD i 0
    else d.getD i 0 * min 1 (supplies.getD q 0 / colSum b d q))

/-- The capacity-limiting rounds for outgoing links `0 .. q-1` applied in
index order to the initial demand vector. -/
def dIter (supplies : List ℚ) (b : List (List ℚ)) (d0 : List ℚ) : Nat → List ℚ
  | 0 => d0
  | q + 1 => dStep supplies b (dIter supplies b d0 q) q

/-- The demand computation loop of step 3 of `Node.compute_flows`, collecting
the sending demand of every incoming link and propagating a division error. -/
def demandsOf : List Nat → List Link → Except CtmError (List ℚ)
  | [], _ => .ok []
  | lid :: rest, s =>
    match (s.getD lid default).sendingDemand with
    | .error e => .error e
    | .ok d =>
      match demandsOf rest s with
      | .error e => .error e
      | .ok ds => .ok (d :: ds)

/-- Heap update writing a list of values through a field setter at a list of
link indices, used for steps 6 and 7 of `Node.compute_flows`. -/
def writeWith (set : Link → ℚ → Link) (pairs : List (Nat × ℚ)) (s : List Link) : List Link :=
  pairs.foldl (fun t p => modifyAt (fun l => set l p.2) p.1 t) s

/-- Step 6 of `Node.compute_flows`: write each incoming link downstream flow. -/
def writeDownstream : List (Nat × ℚ) → List Link → List Link :=
  writeWith (fun l v => { l with downstream_flow := v })

/-- Step 7 of `Node.compute_flows`: write each outgoing link upstream flow. -/
def writeUpstream : List (Nat × ℚ) → List Link → List Link :=
  writeWith (fun l v => { l with upstream_flow := v })

/-- Sum of `downstream_flow` over the incoming links of a node, as read back
from the link heap by the conservation check of `Node.compute_flows`. -/
def inflowTotal (incoming : List Nat) (s : List Link) : ℚ :=
  (incoming.map (fun lid => (s.getD lid default).downstream_flow)).sum

/-- Sum of `upstream_flow` over the outgoing links of a node, as read back
from the link heap by the conservation check of `Node.compute_flows`. -/
def outflowTotal (outgoing : List Nat) (s : List Link) : ℚ :=
  (outgoing.map (fun lid => (s.getD lid default).upstream_flow)).sum

/-- The link heap after steps 6 and 7 of `Node.compute_flows`: the final
reduced demands written to the downstream flow fields of the incoming links
and the split-weighted column sums written to the upstream flow fields of
the outgoing links. -/
def flowWrites (node : Node) (dfin : List ℚ) (s : List Link) : List Link :=
  writeUpstream
    (node.outgoing_links.zip
      ((List.range node.outgoing_links.length).map
        (fun j => colSum node.split_ratio_matrix dfin j)))
    (writeDownstream (node.incoming_links.zip dfin) s)

/-- The flow-resolution algorithm of `Node.compute_flows`: supplies of the
outgoing links, demands of the incoming links, `n` capacity-limiting rounds,
the flow writes, and the final conservation check that raises `SystemError`
on any nonzero discrepancy between total inflow and total outflow. -/
def Node.compute_flows (node : Node) (s : List Link) : Except CtmError (List Link) :=
  match demandsOf node.incoming_links s with
  | .error e => .error e
  | .ok d0 =>
    let s2 := flowWrites node
      (dIter (node.outgoing_links.map (fun lid => (s.getD lid default).supply))
        node.split_ratio_matrix d0 node.outgoing_links.length) s
    if inflowTotal node.incoming_links s2 - outflowTotal node.outgoing_links s2 ≠ 0 then
      .error (.conservation "Singularity detected in node!")
    else
      .ok s2

/-- A `SourceNode`: incident link indices and the fixed configured inflow. -/
structure SourceNode where
  incoming_links : List Nat
  outgoing_links : List Nat
  inflow : ℚ
  deriving DecidableEq, Repr

/-- Flow resolution of `SourceNode.compute_flows`: cardinality checks, then
the single outgoing link upstream flow is set to the configured inflow with
no check against the supply of that link. -/
def SourceNode.compute_flows (node : SourceNode) (s : List Link) : Except CtmError (List Link) :=
  if node.incoming_links.length > 0 then
    .error (.topology "Source nodes are not allowed to have incoming links.")
  else if node.outgoing_links.length ≠ 1 then
    .error (.topology "Source nodes must have exactly one outgoing link.")
  else
    .ok (modifyAt (fun l => { l with upstream_flow := node.inflow })
      (node.outgoing_links.getD 0 0) s)

/-- A `SinkNode`: incident link indices. -/
structure SinkNode where
  incoming_links : List Nat
  outgoing_links : List Nat
  deriving DecidableEq, Repr

/-- Flow resolution of `SinkNode.compute_flows`: cardinality checks, then the
single incoming link downstream flow is set to the full sending demand of
that link, uncapped by any downstream supply. -/
def SinkNode.compute_flows (node : SinkNode) (s : List Link) : Except CtmError (List Link) :=
  if node.outgoing_links.length > 0 then
    .error (.topology "Sink nodes are not allowed to have outgoing links.")
  else if node.incoming_links.length ≠ 1 then
    .error (.topology "Sink nodes must have exactly one incoming link.")
  else
    match (s.getD (node.incoming_links.getD 0 0) default).sendingDemand with
    | .error e => .error e
    | .ok v =>
      .ok (modifyAt (fun l => { l with downstream_flow := v })
        (node.incoming_links.getD 0 0) s)

/-- Closed variant type over the three node behaviours of the model. -/
inductive NetNode where
  | ordinary (node : Node)
  | source (node : SourceNode)
  | sink (node : SinkNode)
  deriving DecidableEq, Repr

/-- Dispatch of `compute_flows` over the node variants. -/
def NetNode.compute_flows : NetNode → List Link → Except CtmError (List Link)
  | .ordinary node, s => node.compute_flows s
  | .source node, s => node.compute_flows s
  | .sink node, s => node.compute_flows s

/-- A network: the node collection and the link heap. -/
structure Network where
  nodes : List NetNode
  links : List Link
  deriving DecidableEq, Repr

/-- The two-phase `Network.step(dt)`: every node resolves its flows in
sequence, then every link applies the density update. -/
def Network.step (net : Network) (dt : ℚ) : Except CtmError Network :=
  match net.nodes.foldlM (fun s node => node.compute_flows s) net.links with
  | .error e => .error e
  | .ok s => .ok { net with links := s.map (fun l => l.update_state dt) }

/-- Driver state of a `Simulation`. -/
structure Simulation where
  net : Network
  start_time : ℚ
  end_time : ℚ
  time : ℚ
  step_size : ℚ
  deriving DecidableEq, Repr

/-- The `Simulation.step` driver: advance the clock by the step size and
perform one network step with that step size. -/
def Simulation.step (sim : Simulation) : Except CtmError Simulation :=
  match sim.net.step sim.step_size with
  | .error e => .error e
  | .ok net => .ok { sim with time := sim.time + sim.step_size, net := net }

/-- Iterated driver steps. -/
def Simulation.stepN : Nat → Simulation → Except CtmError Simulation
  | 0, sim => .ok sim
  | k + 1, sim =>
    match sim.step with
    | .error e => .error e
    | .ok sim2 => Simulation.stepN k sim2

/-- Node `i` of a closed ring of `L` links: its incoming link is link `i`,
its outgoing link is link `(i + 1) % L`, and its split ratio matrix is the
one-by-one matrix `[[1]]`. -/
def ringNode (L i : Nat) : NetNode :=
  .ordinary { incoming_links := [i], outgoing_links := [(i + 1) % L], split_ratio_matrix := [[1]] }

/-- The closed loop network over a given list of links: one ordinary
one-in-one-out node between each consecutive pair of links, no sources and
no sinks. -/
def ringNetwork (links : List Link) : Network :=
  { nodes := (List.range links.length).map (ringNode links.length), links := links }

/-- Total vehicle count of a link heap: the sum of `density * length` over
all links. -/
def totalVehicles (s : List Link) : ℚ := (s.map (fun l => l.density * l.length)).sum

/-- Well-formedness of one link state: positive fundamental diagram
parameters, density within `[0, jam_density]`, and positive length. -/
abbrev ValidLink (l : Link) : Prop :=
  0 < l.fundamental_diagram.flow_capacity ∧ 0 < l.fundamental_diagram.critical_density ∧
    0 < l.fundamental_diagram.congestion_wave_speed ∧ 0 ≤ l.density ∧
    l.density ≤ l.jam_density ∧ 0 < l.length

/-! Heap lemmas for `modifyAt` and the flow writers. -/

theorem modifyAt_length (f : Link → Link) (k : Nat) (s : List Link) :
    (modifyAt f k s).length = s.length := by
  induction s generalizing k with
  | nil => cases k <;> rfl
  | cons a t ih =>
    cases k with
    | zero => rfl
    | succ k => simpa [modifyAt] using ih k

theorem getD_modifyAt_ne (f : Link → Link) (k j : Nat) (s : List Link) (h : j ≠ k) :
    (modifyAt f k s).getD j default = s.getD j default := by
  induction s generalizing k j with
  | nil => cases k <;> rfl
  | cons a t ih =>
    cases k with
    | zero =>
      cases j with
      | zero => exact absurd rfl h
      | succ j => simp [modifyAt, List.getD_cons_succ]
    | succ k =>
      cases j with
      | zero => simp [modifyAt, List.getD_cons_zero]
      | succ j =>
        simp only [modifyAt, List.getD_cons_succ]
        exact ih k j (fun hc => h (by rw [hc]))

theorem getD_modifyAt_self (f : Link → Link) (k : Nat) (s : List Link) (h : k < s.length) :
    (modifyAt f k s).getD k default = f (s.getD k default) := by
  induction s generalizing k with
  | nil => exact absurd h (by simp)
  | cons a t ih =>
    cases k with
    | zero => rfl
    | succ k =>
      simp only [modifyAt, List.getD_cons_succ]
      exact ih k (by simpa using h)

theorem getD_modifyAt_proj {α : Type} (g : Link → α) (f : Link → Link)
    (hf : ∀ l, g (f l) = g l) (k j : Nat) (s : List Link) :
    g ((modifyAt f k s).getD j default) = g (s.getD j default) := by
  by_cases hj : j = k
  · subst hj
    by_cases hlt : j < s.length
    · rw [getD_modifyAt_self f j s hlt, hf]
    · have h1 : (modifyAt f j s).getD j default = default := by
        apply List.getD_eq_default
        rw [modifyAt_length]
        omega
      have h2 : s.getD j default = default := by
        apply List.getD_eq_default
        omega
      rw [h1, h2]
  · rw [getD_modifyAt_ne f k j s hj]

theorem writeWith_length (set : Link → ℚ → Link) (pairs : List (Nat × ℚ)) (s : List Link) :
    (writeWith set pairs s).length = s.length := by
  induction pairs generalizing s with
  | nil => rfl
  | cons p rest ih =>
    simp only [writeWith, List.foldl_cons] at *
    rw [ih, modifyAt_length]

theorem getD_writeWith_proj {α : Type} (g : Link → α) (set : Link → ℚ → Link)
    (hset : ∀ l v, g (set l v) = g l) (pairs : List (Nat × ℚ)) (s : List Link) (j : Nat) :
    g ((writeWith set pairs s).getD j default) = g (s.getD j default) := by
  induction pairs generalizing s with
  | nil => rfl
  | cons p rest ih =>
    simp only [writeWith, List.foldl_cons] at *
    rw [ih, getD_modifyAt_proj g _ (fun l => hset l p.2)]

theorem getD_writeWith_zip_notMem (set : Link → ℚ → Link) (ids : List Nat) (vals : List ℚ)
    (s : List Link) (j : Nat) (h : j ∉ ids) :
    (writeWith set (ids.zip vals) s).getD j default = s.getD j default := by
  induction ids generalizing vals s with
  | nil => rfl
  | cons a ids ih =>
    cases vals with
    | nil => rfl
    | cons v vs =>
      simp only [List.zip_cons_cons, writeWith, List.foldl_cons] at *
      rw [ih vs _ (fun hc => h (List.mem_cons_of_mem a hc)),
        getD_modifyAt_ne _ a j s (fun hc => h (hc ▸ List.mem_cons_self a ids))]

theorem sum_field_writeWith_zip {fieldf : Link → ℚ} (set : Link → ℚ → Link)
    (hread : ∀ l v, fieldf (set l v) = v)
    (ids : List Nat) (vals : List ℚ) (s : List Link)
    (hnd : ids.Nodup) (hlen : ids.length = vals.length)
    (hlt : ∀ lid ∈ ids, lid < s.length) :
    (ids.map (fun lid => fieldf ((writeWith set (ids.zip vals) s).getD lid default))).sum
      = vals.sum := by
  induction ids generalizing vals s with
  | nil =>
    cases vals with
    | nil => rfl
    | cons v vs => exact absurd hlen (by simp)
  | cons a ids ih =>
    cases vals with
    | nil => exact absurd hlen (by simp)
    | cons v vs =>
      have hnd2 := List.nodup_cons.mp hnd
      simp only [List.zip_cons_cons, writeWith, List.foldl_cons, List.map_cons, List.sum_cons]
      have hstep : (writeWith set (ids.zip vs)
          (modifyAt (fun l => set l v) a s)).getD a default
          = set (s.getD a default) v := by
        rw [getD_writeWith_zip_notMem set ids vs _ a hnd2.1,
          getD_modifyAt_self _ a s (hlt a (List.mem_cons_self a ids))]
      have hrest : (ids.map (fun lid => fieldf ((writeWith set (ids.zip vs)
          (modifyAt (fun l => set l v) a s)).getD lid default))).sum = vs.sum := by
        apply ih vs _ hnd2.2 (by simpa using hlen)
        intro lid hm
        rw [modifyAt_length]
        exact hlt lid (List.mem_cons_of_mem a hm)
      simp only [writeWith] at hstep hrest
      rw [hstep, hread, hrest]

theorem getD_writeWith_zip_head (set : Link → ℚ → Link) (a : Nat) (v : ℚ)
    (ids : List Nat) (vals : List ℚ) (s : List Link) (ha : a < s.length) (hnm : a ∉ ids) :
    (writeWith set ((a, v) :: ids.zip vals) s).getD a default = set (s.getD a default) v := by
  rw [show (writeWith set ((a, v) :: ids.zip vals) s)
      = writeWith set (ids.zip vals) (modifyAt (fun l => set l v) a s) from rfl]
  rw [getD_writeWith_zip_notMem set ids vals _ a hnm, getD_modifyAt_self _ a s ha]

/-! Demand and supply characterizations. -/

theorem sendingDemand_eq_ok (l : Link)
    (hfc : 0 < l.fundamental_diagram.flow_capacity)
    (hcd : 0 < l.fundamental_diagram.critical_density)
    (hd : 0 ≤ l.density) :
    l.sendingDemand = .ok l.demandValue := by
  have hffs : 0 < l.free_flow_speed := div_pos hfc hcd
  unfold Link.sendingDemand Link.demandValue
  by_cases hpos : 0 < l.density
  · have : l.free_flow_speed * l.density ≠ 0 := ne_of_gt (mul_pos hffs hpos)
    simp [hpos, this]
  · simp [hpos]

theorem mul_min_one_div (a c : ℚ) (ha : 0 < a) : a * min 1 (c / a) = min a c := by
  rcases le_total (c / a) 1 with h | h
  · rw [min_eq_right h, mul_div_cancel₀ c (ne_of_gt ha),
      min_eq_right ((div_le_one ha).mp h)]
  · rw [min_eq_left h, mul_one, min_eq_left ((one_le_div ha).mp h)]

theorem demandValue_eq_min (l : Link)
    (hfc : 0 < l.fundamental_diagram.flow_capacity)
    (hcd : 0 < l.fundamental_diagram.critical_density)
    (hd : 0 ≤ l.density) :
    l.demandValue = min l.flow_capacity (l.free_flow_speed * l.density) := by
  have hffs : 0 < l.free_flow_speed := div_pos hfc hcd
  unfold Link.demandValue
  by_cases hpos : 0 < l.density
  · rw [if_pos hpos, mul_min_one_div _ _ (mul_pos hffs hpos), min_comm]
  · have hz : l.density = 0 := le_antisymm (not_lt.mp hpos) hd
    rw [if_neg hpos, hz]
    have : (0:ℚ) ≤ l.flow_capacity := le_of_lt hfc
    simp [this]

theorem demandValue_nonneg (l : Link)
    (hfc : 0 < l.fundamental_diagram.flow_capacity)
    (hcd : 0 < l.fundamental_diagram.critical_density)
    (hd : 0 ≤ l.density) :
    0 ≤ l.demandValue := by
  rw [demandValue_eq_min l hfc hcd hd]
  have hffs : 0 < l.free_flow_speed := div_pos hfc hcd
  exact le_min (le_of_lt hfc) (mul_nonneg (le_of_lt hffs) hd)

theorem supply_nonneg (l : Link) (hv : ValidLink l) : 0 ≤ l.supply := by
  obtain ⟨hfc, hcd, hcw, hd, hjam, hlen⟩ := hv
  exact le_min (le_of_lt hfc)
    (mul_nonneg (le_of_lt hcw) (by simpa [Link.jam_density] using sub_nonneg.mpr hjam))

theorem demandsOf_eq_ok (ids : List Nat) (s : List Link)
    (h : ∀ lid ∈ ids, (s.getD lid default).sendingDemand
      = .ok ((s.getD lid default).demandValue)) :
    demandsOf ids s = .ok (ids.map (fun lid => (s.getD lid default).demandValue)) := by
  induction ids with
  | nil => rfl
  | cons a ids ih =>
    simp only [demandsOf, h a (List.mem_cons_self a ids),
      ih (fun lid hm => h lid (List.mem_cons_of_mem a hm)), List.map_cons]

/-! Sum bridges between list sums and `Finset.range` sums. -/

theorem list_sum_eq_sum_getD (l : List ℚ) :
    l.sum = ∑ i ∈ Finset.range l.length, l.getD i 0 := by
  induction l with
  | nil => simp
  | cons a t ih =>
    simp only [List.sum_cons, List.length_cons, Finset.sum_range_succ',
      List.getD_cons_succ, List.getD_cons_zero, ih]
    ring

theorem list_map_range_sum (f : Nat → ℚ) (n : Nat) :
    ((List.range n).map f).sum = ∑ j ∈ Finset.range n, f j := by
  induction n with
  | zero => simp
  | succ n ih => simp [List.range_succ, ih, Finset.sum_range_succ]

theorem list_map_sum_eq (f : Link → ℚ) (t : List Link) :
    (t.map f).sum = ∑ j ∈ Finset.range t.length, f (t.getD j default) := by
  induction t with
  | nil => simp
  | cons a t ih =>
    simp only [List.map_cons, List.sum_cons, List.length_cons, Finset.sum_range_succ',
      List.getD_cons_succ, List.getD_cons_zero, ih]
    ring

theorem colSum_eq_finset (b : List (List ℚ)) (d : List ℚ) (j : Nat) :
    colSum b d j = ∑ i ∈ Finset.range d.length, matEntry b i j * d.getD i 0 :=
  list_map_range_sum _ _

theorem dStep_length (supplies : List ℚ) (b : List (List ℚ)) (d : List ℚ) (q : Nat) :
    (dStep supplies b d q).length = d.length := by
  simp [dStep]

theorem dIter_length (supplies : List ℚ) (b : List (List ℚ)) (d0 : List ℚ) (q : Nat) :
    (dIter supplies b d0 q).length = d0.length := by
  induction q with
  | zero => rfl
  | succ q ih => simp [dIter, dStep_length, ih]

/-! Claim C3: the link state update. -/

/-- C3: for every link and every `dt`, `Link.update_state dt` replaces the
density by `density + (dt / length) * (upstream_flow - downstream_flow)`,
using the flow fields currently stored on the link, and changes no other
attribute of the link. -/
theorem update_state_replaces_density_only (l : Link) (dt : ℚ) :
    (l.update_state dt).density
        = l.density + (dt / l.length) * (l.upstream_flow - l.downstream_flow) ∧
      (l.update_state dt).fundamental_diagram = l.fundamental_diagram ∧
      (l.update_state dt).length = l.length ∧
      (l.update_state dt).upstream_flow = l.upstream_flow ∧
      (l.update_state dt).downstream_flow = l.downstream_flow :=
  ⟨rfl, rfl, rfl, rfl, rfl⟩

/-! Claim C4: the fundamental diagram flow query. -/

/-- Specification of `flow_at_density` for one diagram: the domain error
happens exactly outside `[0, jam_density]`, inside the domain the value is
the free-flow branch below the critical density and the congested branch at
or above it, and the two branches agree at the critical density. -/
def FlowAtDensitySpec (fd : FundamentalDiagram) : Prop :=
  (∀ d : ℚ, (∃ msg, fd.flow_at_density d = .error (.domain msg))
      ↔ (d < 0 ∨ fd.jam_density < d)) ∧
    (∀ d : ℚ, 0 ≤ d → d < fd.critical_density →
      fd.flow_at_density d = .ok (fd.free_flow_speed * d)) ∧
    (∀ d : ℚ, fd.critical_density ≤ d → d ≤ fd.jam_density →
      fd.flow_at_density d
        = .ok (fd.flow_capacity - fd.congestion_wave_speed * (d - fd.critical_density))) ∧
    fd.free_flow_speed * fd.critical_density
      = fd.flow_capacity - fd.congestion_wave_speed * (fd.critical_density - fd.critical_density)

/-- C4: for every fundamental diagram with positive parameters,
`flow_at_density density` fails with a domain error if and only if
`density < 0` or `density > jam_density`; otherwise it returns
`free_flow_speed * density` when `density < critical_density` and
`flow_capacity - congestion_wave_speed * (density - critical_density)` when
`density ≥ critical_density`, and the two branches agree at the critical
density. -/
theorem flow_at_density_spec (fd : FundamentalDiagram)
    (hfc : 0 < fd.flow_capacity) (hcd : 0 < fd.critical_density)
    (hcw : 0 < fd.congestion_wave_speed) : FlowAtDensitySpec fd := by
  have hjc : fd.critical_density ≤ fd.jam_density := by
    have : 0 < fd.flow_capacity / fd.congestion_wave_speed := div_pos hfc hcw
    unfold FundamentalDiagram.jam_density
    linarith
  refine ⟨?_, ?_, ?_, ?_⟩
  · intro d
    constructor
    · rintro ⟨msg, hm⟩
      by_contra hcond
      push_neg at hcond
      unfold FundamentalDiagram.flow_at_density at hm
      rw [if_neg (by push_neg; exact ⟨hcond.1, hcond.2⟩)] at hm
      by_cases hcrit : d < fd.critical_density <;> simp [hcrit] at hm
    · intro h
      exact ⟨"Provided density value is invalid.",
        by unfold FundamentalDiagram.flow_at_density; rw [if_pos h]⟩
  · intro d h0 hlt
    unfold FundamentalDiagram.flow_at_density
    rw [if_neg (by push_neg; exact ⟨h0, le_trans (le_of_lt hlt) hjc⟩), if_pos hlt]
  · intro d hge hle
    unfold FundamentalDiagram.flow_at_density
    rw [if_neg (by push_neg; exact ⟨le_trans (le_of_lt hcd) hge, hle⟩),
      if_neg (not_lt.mpr hge)]
  · rw [sub_self, mul_zero, sub_zero, FundamentalDiagram.free_flow_speed,
      div_mul_cancel₀ _ (ne_of_gt hcd)]

/-- Witness for C4 at the concrete diagram with capacity 1800, critical
density 18 and wave speed 10. -/
theorem flow_at_density_spec_witness :
    (0 < (FundamentalDiagram.mk 1800 18 10).flow_capacity ∧
        0 < (FundamentalDiagram.mk 1800 18 10).critical_density ∧
        0 < (FundamentalDiagram.mk 1800 18 10).congestion_wave_speed) ∧
      FlowAtDensitySpec (FundamentalDiagram.mk 1800 18 10) :=
  ⟨by norm_num, flow_at_density_spec _ (by norm_num) (by norm_num) (by norm_num)⟩

/-! Frame lemmas for the two flow writers. -/

theorem frame_writeUpstream (pairs : List (Nat × ℚ)) (s : List Link) (j : Nat) :
    ((writeUpstream pairs s).getD j default).density = (s.getD j default).density ∧
      ((writeUpstream pairs s).getD j default).length = (s.getD j default).length ∧
      ((writeUpstream pairs s).getD j default).fundamental_diagram
        = (s.getD j default).fundamental_diagram ∧
      ((writeUpstream pairs s).getD j default).downstream_flow
        = (s.getD j default).downstream_flow := by
  unfold writeUpstream
  exact ⟨getD_writeWith_proj (fun l => l.density)
      (fun l v => { l with upstream_flow := v }) (fun _ _ => rfl) pairs s j,
    getD_writeWith_proj (fun l => l.length)
      (fun l v => { l with upstream_flow := v }) (fun _ _ => rfl) pairs s j,
    getD_writeWith_proj (fun l => l.fundamental_diagram)
      (fun l v => { l with upstream_flow := v }) (fun _ _ => rfl) pairs s j,
    getD_writeWith_proj (fun l => l.downstream_flow)
      (fun l v => { l with upstream_flow := v }) (fun _ _ => rfl) pairs s j⟩

theorem frame_writeDownstream (pairs : List (Nat × ℚ)) (s : List Link) (j : Nat) :
    ((writeDownstream pairs s).getD j default).density = (s.getD j default).density ∧
      ((writeDownstream pairs s).getD j default).length = (s.getD j default).length ∧
      ((writeDownstream pairs s).getD j default).fundamental_diagram
        = (s.getD j default).fundamental_diagram ∧
      ((writeDownstream pairs s).getD j default).upstream_flow
        = (s.getD j default).upstream_flow := by
  unfold writeDownstream
  exact ⟨getD_writeWith_proj (fun l => l.density)
      (fun l v => { l with downstream_flow := v }) (fun _ _ => rfl) pairs s j,
    getD_writeWith_proj (fun l => l.length)
      (fun l v => { l with downstream_flow := v }) (fun _ _ => rfl) pairs s j,
    getD_writeWith_proj (fun l => l.fundamental_diagram)
      (fun l v => { l with downstream_flow := v }) (fun _ _ => rfl) pairs s j,
    getD_writeWith_proj (fun l => l.upstream_flow)
      (fun l v => { l with downstream_flow := v }) (fun _ _ => rfl) pairs s j⟩

theorem flowWrites_length (node : Node) (dfin : List ℚ) (s : List Link) :
    (flowWrites node dfin s).length = s.length := by
  unfold flowWrites writeUpstream writeDownstream
  rw [writeWith_length, writeWith_length]

/-! Read-back of the totals after the flow writes. -/

theorem inflowTotal_flowWrites (node : Node) (dfin : List ℚ) (s : List Link)
    (hnd : node.incoming_links.Nodup)
    (hlen : node.incoming_links.length = dfin.length)
    (hlt : ∀ lid ∈ node.incoming_links, lid < s.length) :
    inflowTotal node.incoming_links (flowWrites node dfin s) = dfin.sum := by
  unfold inflowTotal flowWrites
  rw [List.map_congr_left
    (fun lid _ => (frame_writeUpstream _ (writeDownstream (node.incoming_links.zip dfin) s)
      lid).2.2.2)]
  unfold writeDownstream
  exact sum_field_writeWith_zip (fun l v => { l with downstream_flow := v })
    (fun _ _ => rfl) _ _ s hnd hlen hlt

theorem outflowTotal_flowWrites (node : Node) (dfin : List ℚ) (s : List Link)
    (hnd : node.outgoing_links.Nodup)
    (hlt : ∀ lid ∈ node.outgoing_links, lid < s.length) :
    outflowTotal node.outgoing_links (flowWrites node dfin s)
      = ∑ j ∈ Finset.range node.outgoing_links.length,
          colSum node.split_ratio_matrix dfin j := by
  unfold outflowTotal flowWrites writeUpstream
  rw [sum_field_writeWith_zip (fun l v => { l with upstream_flow := v })
    (fun _ _ => rfl) _ _ _ hnd
    (by rw [List.length_map, List.length_range])
    (by intro lid hm; unfold writeDownstream; rw [writeWith_length]; exact hlt lid hm)]
  exact list_map_range_sum _ _

theorem sum_colSum_of_row_sums (b : List (List ℚ)) (d : List ℚ) (n : Nat)
    (hrow : ∀ i, i < d.length → ∑ j ∈ Finset.range n, matEntry b i j = 1) :
    ∑ j ∈ Finset.range n, colSum b d j = d.sum := by
  have h1 : ∑ j ∈ Finset.range n, colSum b d j
      = ∑ j ∈ Finset.range n, ∑ i ∈ Finset.range d.length, matEntry b i j * d.getD i 0 :=
    Finset.sum_congr rfl (fun j _ => colSum_eq_finset b d j)
  rw [h1, Finset.sum_comm]
  have h2 : ∀ i ∈ Finset.range d.length,
      ∑ j ∈ Finset.range n, matEntry b i j * d.getD i 0 = d.getD i 0 := by
    intro i hi
    rw [← Finset.sum_mul, hrow i (Finset.mem_range.mp hi), one_mul]
  rw [Finset.sum_congr rfl h2, ← list_sum_eq_sum_getD]

/-! Claim C1: exact flow conservation at ordinary nodes. -/

/-- C1, second half in isolation: whenever `Node.compute_flows` returns
normally, the two totals read back from the heap are equal; any nonzero
discrepancy instead raises the fatal conservation error. -/
theorem compute_flows_ok_totals_equal (node : Node) (s s2 : List Link)
    (h : node.compute_flows s = .ok s2) :
    inflowTotal node.incoming_links s2 = outflowTotal node.outgoing_links s2 := by
  simp only [Node.compute_flows] at h
  split at h
  · cases h
  · split at h
    · cases h
    · next hcond =>
      cases h
      exact sub_eq_zero.mp (not_not.mp hcond)

/-- C1: for every node whose incident link lists are well formed (distinct
links, indices inside the heap, valid incoming link states) and whose split
ratio matrix rows each sum to one, `Node.compute_flows` returns normally
and the sum of `downstream_flow` over the incoming links equals the sum of
`upstream_flow` over the outgoing links exactly; and whenever it returns
normally at all, the two totals are equal, any nonzero discrepancy being
surfaced as the fatal conservation error instead of a normal return. -/
theorem compute_flows_conservation (node : Node) (s : List Link)
    (hin : node.incoming_links.Nodup) (hout : node.outgoing_links.Nodup)
    (hinlt : ∀ lid ∈ node.incoming_links, lid < s.length)
    (houtlt : ∀ lid ∈ node.outgoing_links, lid < s.length)
    (hv : ∀ lid ∈ node.incoming_links, ValidLink (s.getD lid default))
    (hrow : ∀ i, i < node.incoming_links.length →
      ∑ j ∈ Finset.range node.outgoing_links.length,
        matEntry node.split_ratio_matrix i j = 1) :
    (∃ s2, node.compute_flows s = .ok s2 ∧
        inflowTotal node.incoming_links s2 = outflowTotal node.outgoing_links s2) ∧
      (∀ s2, node.compute_flows s = .ok s2 →
        inflowTotal node.incoming_links s2 = outflowTotal node.outgoing_links s2) := by
  refine ⟨?_, fun s2 h => compute_flows_ok_totals_equal node s s2 h⟩
  have hdm := demandsOf_eq_ok node.incoming_links s (fun lid hm =>
    sendingDemand_eq_ok _ (hv lid hm).1 (hv lid hm).2.1 (hv lid hm).2.2.2.1)
  set dfin := dIter (node.outgoing_links.map (fun lid => (s.getD lid default).supply))
    node.split_ratio_matrix
    (node.incoming_links.map (fun lid => (s.getD lid default).demandValue))
    node.outgoing_links.length with hdfin
  have hlen : node.incoming_links.length = dfin.length := by
    rw [hdfin, dIter_length, List.length_map]
  have hItot : inflowTotal node.incoming_links (flowWrites node dfin s) = dfin.sum :=
    inflowTotal_flowWrites node dfin s hin hlen hinlt
  have hOtot : outflowTotal node.outgoing_links (flowWrites node dfin s)
      = ∑ j ∈ Finset.range node.outgoing_links.length,
          colSum node.split_ratio_matrix dfin j :=
    outflowTotal_flowWrites node dfin s hout houtlt
  have hsum : ∑ j ∈ Finset.range node.outgoing_links.length,
      colSum node.split_ratio_matrix dfin j = dfin.sum :=
    sum_colSum_of_row_sums _ _ _ (fun i hi => hrow i (by rw [hlen]; exact hi))
  have heq : inflowTotal node.incoming_links (flowWrites node dfin s)
      = outflowTotal node.outgoing_links (flowWrites node dfin s) := by
    rw [hItot, hOtot, hsum]
  refine ⟨flowWrites node dfin s, ?_, heq⟩
  simp only [Node.compute_flows, hdm]
  rw [if_neg (not_not_intro (sub_eq_zero_of_eq heq))]

/-- Concrete fundamental diagram used by the witnesses: capacity 1800,
critical density 18 (so free flow speed 100), wave speed 10 (so jam
density 198). -/
def demoFd : FundamentalDiagram := ⟨1800, 18, 10⟩

/-- Concrete link of unit length at a given density. -/
def demoLink (d : ℚ) : Link := ⟨demoFd, d, 1, 0, 0⟩

/-- Concrete link heap for the node witnesses. -/
def demoHeap : List Link := [demoLink 9, demoLink 30, demoLink 0, demoLink 100]

/-- Concrete two-in two-out node with an even split. -/
def demoNode : Node := ⟨[0, 1], [2, 3], [[1/2, 1/2], [1/2, 1/2]]⟩

/-- Witness for C1 at the concrete two-in two-out node. -/
theorem compute_flows_conservation_witness :
    (demoNode.incoming_links.Nodup ∧ demoNode.outgoing_links.Nodup ∧
        (∀ lid ∈ demoNode.incoming_links, lid < demoHeap.length) ∧
        (∀ lid ∈ demoNode.outgoing_links, lid < demoHeap.length) ∧
        (∀ lid ∈ demoNode.incoming_links, ValidLink (demoHeap.getD lid default)) ∧
        (∀ i, i < demoNode.incoming_links.length →
          ∑ j ∈ Finset.range demoNode.outgoing_links.length,
            matEntry demoNode.split_ratio_matrix i j = 1)) ∧
      ((∃ s2, demoNode.compute_flows demoHeap = .ok s2 ∧
          inflowTotal demoNode.incoming_links s2
            = outflowTotal demoNode.outgoing_links s2) ∧
        (∀ s2, demoNode.compute_flows demoHeap = .ok s2 →
          inflowTotal demoNode.incoming_links s2
            = outflowTotal demoNode.outgoing_links s2)) := by
  have hnd1 : demoNode.incoming_links.Nodup := by decide
  have hnd2 : demoNode.outgoing_links.Nodup := by decide
  have hlt1 : ∀ lid ∈ demoNode.incoming_links, lid < demoHeap.length := by decide
  have hlt2 : ∀ lid ∈ demoNode.outgoing_links, lid < demoHeap.length := by decide
  have hv : ∀ lid ∈ demoNode.incoming_links, ValidLink (demoHeap.getD lid default) := by
    intro lid hm
    fin_cases hm <;>
      norm_num [demoHeap, demoLink, demoFd, ValidLink, Link.jam_density,
        FundamentalDiagram.jam_density]
  have hrow : ∀ i, i < demoNode.incoming_links.length →
      ∑ j ∈ Finset.range demoNode.outgoing_links.length,
        matEntry demoNode.split_ratio_matrix i j = 1 := by
    intro i hi
    have hi2 : i < 2 := by simpa [demoNode] using hi
    interval_cases i <;>
      norm_num [demoNode, Finset.sum_range_succ, matEntry]
  exact ⟨⟨hnd1, hnd2, hlt1, hlt2, hv, hrow⟩,
    compute_flows_conservation demoNode demoHeap hnd1 hnd2 hlt1 hlt2 hv hrow⟩

/-! One-in one-out nodes. -/

/-- Flow value resolved by a one-in one-out node with split ratio one:
the single capacity-limiting round applied to the demand of incoming link
`a` against the supply of outgoing link `b`. -/
def oneOneVal (s : List Link) (a b : Nat) : ℚ :=
  (s.getD a default).demandValue
    * min 1 ((s.getD b default).supply / (s.getD a default).demandValue)

theorem list_range_one : List.range 1 = [0] := rfl

theorem colSum_single (v : ℚ) : colSum [[1]] [v] 0 = v := by
  norm_num [colSum, matEntry, list_range_one]

theorem dIter_one_one (sup dv : ℚ) :
    dIter [sup] [[1]] [dv] 1 = [dv * min 1 (sup / dv)] := by
  norm_num [dIter, dStep, colSum, matEntry, list_range_one]

/-- Characterization of `Node.compute_flows` at a one-in one-out node with
split ratio matrix `[[1]]`: the run succeeds and writes the value
`oneOneVal s a b` to the downstream flow of `a` and the upstream flow of
`b`. -/
theorem one_one_compute (a b : Nat) (s : List Link) (ha : a < s.length) (hb : b < s.length)
    (hdem : (s.getD a default).sendingDemand = .ok ((s.getD a default).demandValue)) :
    (Node.mk [a] [b] [[1]]).compute_flows s
      = .ok (modifyAt (fun l => { l with upstream_flow := oneOneVal s a b }) b
          (modifyAt (fun l => { l with downstream_flow := oneOneVal s a b }) a s)) := by
  have hdm : demandsOf [a] s = .ok [(s.getD a default).demandValue] := by
    unfold demandsOf
    rw [hdem]
    rfl
  have hdfin : dIter [(s.getD b default).supply] [[1]]
      [(s.getD a default).demandValue] [b].length = [oneOneVal s a b] := by
    rw [show ([b] : List Nat).length = 1 from rfl, dIter_one_one]
    rfl
  have hwrites : flowWrites (Node.mk [a] [b] [[1]]) [oneOneVal s a b] s
      = modifyAt (fun l => { l with upstream_flow := oneOneVal s a b }) b
          (modifyAt (fun l => { l with downstream_flow := oneOneVal s a b }) a s) := by
    simp [flowWrites, writeUpstream, writeDownstream, writeWith, list_range_one, colSum_single]
  have hdown : ((modifyAt (fun l => { l with upstream_flow := oneOneVal s a b }) b
      (modifyAt (fun l => { l with downstream_flow := oneOneVal s a b }) a s)).getD
        a default).downstream_flow = oneOneVal s a b := by
    rw [getD_modifyAt_proj (fun l => l.downstream_flow)
        (fun l => { l with upstream_flow := oneOneVal s a b }) (fun _ => rfl) b a,
      getD_modifyAt_self _ a s ha]
  have hup : ((modifyAt (fun l => { l with upstream_flow := oneOneVal s a b }) b
      (modifyAt (fun l => { l with downstream_flow := oneOneVal s a b }) a s)).getD
        b default).upstream_flow = oneOneVal s a b := by
    rw [getD_modifyAt_self _ b _ (by rw [modifyAt_length]; exact hb)]
  have hzero : inflowTotal [a]
        (modifyAt (fun l => { l with upstream_flow := oneOneVal s a b }) b
          (modifyAt (fun l => { l with downstream_flow := oneOneVal s a b }) a s))
      - outflowTotal [b]
        (modifyAt (fun l => { l with upstream_flow := oneOneVal s a b }) b
          (modifyAt (fun l => { l with downstream_flow := oneOneVal s a b }) a s)) = 0 := by
    unfold inflowTotal outflowTotal
    simp only [List.map_cons, List.map_nil, List.sum_cons, List.sum_nil]
    rw [hdown, hup]
    ring
  simp only [Node.compute_flows, hdm, List.map_cons, List.map_nil]
  rw [hdfin, hwrites, if_neg (not_not_intro hzero)]

theorem oneOneVal_eq_min (s : List Link) (a b : Nat)
    (hva : ValidLink (s.getD a default)) (hvb : ValidLink (s.getD b default)) :
    oneOneVal s a b = min ((s.getD a default).demandValue) ((s.getD b default).supply) := by
  unfold oneOneVal
  rcases lt_or_eq_of_le (demandValue_nonneg _ hva.1 hva.2.1 hva.2.2.2.1) with h | h
  · exact mul_min_one_div _ _ h
  · rw [← h, zero_mul, eq_comm, min_eq_left (supply_nonneg _ hvb)]

/-! Claim C2: one-in one-out nodes resolve to min of demand and supply. -/

/-- C2: for every node with exactly one incoming link, one outgoing link and
split ratio one, `Node.compute_flows` sets the downstream flow of the
incoming link and the upstream flow of the outgoing link both to
`min(demand, supply)`, with `demand = min(flow_capacity,
free_flow_speed * density)` of the incoming link (zero at zero density) and
`supply = min(flow_capacity, congestion_wave_speed * (jam_density -
density))` of the outgoing link. -/
theorem one_to_one_min_flow (a b : Nat) (s : List Link)
    (ha : a < s.length) (hb : b < s.length)
    (hva : ValidLink (s.getD a default)) (hvb : ValidLink (s.getD b default)) :
    ∃ s2, (Node.mk [a] [b] [[1]]).compute_flows s = .ok s2 ∧
      (s2.getD a default).downstream_flow
        = min (min (s.getD a default).flow_capacity
              ((s.getD a default).free_flow_speed * (s.getD a default).density))
            (min (s.getD b default).flow_capacity
              ((s.getD b default).congestion_wave_speed
                * ((s.getD b default).jam_density - (s.getD b default).density))) ∧
      (s2.getD b default).upstream_flow
        = min (min (s.getD a default).flow_capacity
              ((s.getD a default).free_flow_speed * (s.getD a default).density))
            (min (s.getD b default).flow_capacity
              ((s.getD b default).congestion_wave_speed
                * ((s.getD b default).jam_density - (s.getD b default).density))) := by
  have hdem := sendingDemand_eq_ok _ hva.1 hva.2.1 hva.2.2.2.1
  have hval : oneOneVal s a b
      = min (min (s.getD a default).flow_capacity
            ((s.getD a default).free_flow_speed * (s.getD a default).density))
          (min (s.getD b default).flow_capacity
            ((s.getD b default).congestion_wave_speed
              * ((s.getD b default).jam_density - (s.getD b default).density))) := by
    rw [oneOneVal_eq_min s a b hva hvb,
      demandValue_eq_min _ hva.1 hva.2.1 hva.2.2.2.1]
    rfl
  refine ⟨_, one_one_compute a b s ha hb hdem, ?_, ?_⟩
  · rw [getD_modifyAt_proj (fun l => l.downstream_flow)
        (fun l => { l with upstream_flow := oneOneVal s a b }) (fun _ => rfl) b a,
      getD_modifyAt_self _ a s ha]
    exact hval
  · rw [getD_modifyAt_self _ b _ (by rw [modifyAt_length]; exact hb)]
    exact hval

/-- Heap for the first concrete case of C2: incoming density 9 (demand 900)
and outgoing density 0 (supply 1800). -/
def demoHeapFree : List Link := [demoLink 9, demoLink 0]

/-- Heap for the second concrete case of C2: incoming density 36 (demand
clipped to 1800) and outgoing density 138 (supply 600). -/
def demoHeapClip : List Link := [demoLink 36, demoLink 138]

/-- Witness for C2: the two concrete cases of the claim, flow 900 under
demand 900 and supply 1800, and flow 600 under clipped demand 1800 and
supply 600. -/
theorem one_to_one_min_flow_witness :
    ((0 < demoHeapFree.length ∧ 1 < demoHeapFree.length ∧
        ValidLink (demoHeapFree.getD 0 default) ∧ ValidLink (demoHeapFree.getD 1 default)) ∧
      ∃ s2, (Node.mk [0] [1] [[1]]).compute_flows demoHeapFree = .ok s2 ∧
        (s2.getD 0 default).downstream_flow = 900 ∧
        (s2.getD 1 default).upstream_flow = 900) ∧
    ((0 < demoHeapClip.length ∧ 1 < demoHeapClip.length ∧
        ValidLink (demoHeapClip.getD 0 default) ∧ ValidLink (demoHeapClip.getD 1 default)) ∧
      ∃ s2, (Node.mk [0] [1] [[1]]).compute_flows demoHeapClip = .ok s2 ∧
        (s2.getD 0 default).downstream_flow = 600 ∧
        (s2.getD 1 default).upstream_flow = 600) := by
  have hv1 : ValidLink (demoHeapFree.getD 0 default) ∧ ValidLink (demoHeapFree.getD 1 default) := by
    constructor <;>
      norm_num [demoHeapFree, demoLink, demoFd, ValidLink, Link.jam_density,
        FundamentalDiagram.jam_density]
  have hv2 : ValidLink (demoHeapClip.getD 0 default) ∧ ValidLink (demoHeapClip.getD 1 default) := by
    constructor <;>
      norm_num [demoHeapClip, demoLink, demoFd, ValidLink, Link.jam_density,
        FundamentalDiagram.jam_density]
  obtain ⟨s2, hok, hdn, hup⟩ := one_to_one_min_flow 0 1 demoHeapFree
    (by norm_num [demoHeapFree]) (by norm_num [demoHeapFree]) hv1.1 hv1.2
  obtain ⟨t2, hok2, hdn2, hup2⟩ := one_to_one_min_flow 0 1 demoHeapClip
    (by norm_num [demoHeapClip]) (by norm_num [demoHeapClip]) hv2.1 hv2.2
  refine ⟨⟨⟨by norm_num [demoHeapFree], by norm_num [demoHeapFree], hv1⟩, s2, hok, ?_, ?_⟩,
    ⟨⟨by norm_num [demoHeapClip], by norm_num [demoHeapClip], hv2⟩, t2, hok2, ?_, ?_⟩⟩
  · rw [hdn]
    norm_num [demoHeapFree, demoLink, demoFd, Link.flow_capacity, Link.free_flow_speed,
      Link.congestion_wave_speed, Link.jam_density, FundamentalDiagram.free_flow_speed,
      FundamentalDiagram.jam_density]
  · rw [hup]
    norm_num [demoHeapFree, demoLink, demoFd, Link.flow_capacity, Link.free_flow_speed,
      Link.congestion_wave_speed, Link.jam_density, FundamentalDiagram.free_flow_speed,
      FundamentalDiagram.jam_density]
  · rw [hdn2]
    norm_num [demoHeapClip, demoLink, demoFd, Link.flow_capacity, Link.free_flow_speed,
      Link.congestion_wave_speed, Link.jam_density, FundamentalDiagram.free_flow_speed,
      FundamentalDiagram.jam_density]
  · rw [hup2]
    norm_num [demoHeapClip, demoLink, demoFd, Link.flow_capacity, Link.free_flow_speed,
      Link.congestion_wave_speed, Link.jam_density, FundamentalDiagram.free_flow_speed,
      FundamentalDiagram.jam_density]

/-! Claim C6: sink nodes. -/

/-- C6: a sink with exactly one incoming link and no outgoing links sets
that incoming link downstream flow to `min(flow_capacity, free_flow_speed *
density)` of that link, uncapped by any downstream supply; a sink with any
outgoing link, or without exactly one incoming link, fails with a topology
error. -/
theorem sink_compute_flows_spec (node : SinkNode) (s : List Link) :
    (∀ lid, node.outgoing_links = [] → node.incoming_links = [lid] →
      lid < s.length → ValidLink (s.getD lid default) →
      node.compute_flows s
        = .ok (modifyAt (fun l => { l with downstream_flow :=
            (min (s.getD lid default).flow_capacity
              ((s.getD lid default).free_flow_speed * (s.getD lid default).density)) })
          lid s)) ∧
    (node.outgoing_links ≠ [] ∨ node.incoming_links.length ≠ 1 →
      ∃ msg, node.compute_flows s = .error (.topology msg)) := by
  constructor
  · intro lid h0 h1 hlt hv
    have hdem := sendingDemand_eq_ok _ hv.1 hv.2.1 hv.2.2.2.1
    rw [demandValue_eq_min _ hv.1 hv.2.1 hv.2.2.2.1] at hdem
    have hred : node.compute_flows s
        = (match (s.getD lid default).sendingDemand with
          | .error e => .error e
          | .ok v => .ok (modifyAt (fun l => { l with downstream_flow := v }) lid s)) := by
      unfold SinkNode.compute_flows
      rw [h0, h1]
      rfl
    rw [hred, hdem]
  · intro h
    unfold SinkNode.compute_flows
    by_cases hout : node.outgoing_links.length > 0
    · exact ⟨_, by rw [if_pos hout]⟩
    · have hne : node.incoming_links.length ≠ 1 := by
        rcases h with h | h
        · exact absurd (List.length_pos.mpr h) hout
        · exact h
      exact ⟨_, by rw [if_neg hout, if_pos hne]⟩

/-- Witness for C6: a sink draining the link at density 9 receives the full
demand 900 regardless of downstream supply, and a sink with two incoming
links fails with a topology error. -/
theorem sink_compute_flows_spec_witness :
    (ValidLink (demoHeapFree.getD 0 default) ∧
      ∃ s2, (SinkNode.mk [0] []).compute_flows demoHeapFree = .ok s2 ∧
        (s2.getD 0 default).downstream_flow = 900) ∧
    ∃ msg, (SinkNode.mk [0, 1] []).compute_flows demoHeapFree = .error (.topology msg) := by
  have hv : ValidLink (demoHeapFree.getD 0 default) := by
    norm_num [demoHeapFree, demoLink, demoFd, ValidLink, Link.jam_density,
      FundamentalDiagram.jam_density]
  have h1 := (sink_compute_flows_spec (SinkNode.mk [0] []) demoHeapFree).1 0 rfl rfl
    (by norm_num [demoHeapFree]) hv
  refine ⟨⟨hv, _, h1, ?_⟩,
    (sink_compute_flows_spec (SinkNode.mk [0, 1] []) demoHeapFree).2 (Or.inr (by norm_num))⟩
  rw [getD_modifyAt_self _ 0 _ (by norm_num [demoHeapFree])]
  norm_num [demoHeapFree, demoLink, demoFd, Link.flow_capacity, Link.free_flow_speed,
    FundamentalDiagram.free_flow_speed]

/-! Claim C7: source nodes. -/

/-- C7: a source with no incoming links and exactly one outgoing link sets
that outgoing link upstream flow to the fixed configured inflow with no
capacity check against the supply of that link (the heap is arbitrary); a
source with any incoming link, or without exactly one outgoing link, fails
with a topology error, a failure type distinct from the conservation
failure. -/
theorem source_compute_flows_spec (node : SourceNode) (s : List Link) :
    (∀ lid, node.incoming_links = [] → node.outgoing_links = [lid] →
      node.compute_flows s
        = .ok (modifyAt (fun l => { l with upstream_flow := node.inflow }) lid s)) ∧
    (node.incoming_links ≠ [] ∨ node.outgoing_links.length ≠ 1 →
      ∃ msg, node.compute_flows s = .error (.topology msg)) ∧
    (∀ m1 m2 : String, (CtmError.topology m1 : CtmError) ≠ CtmError.conservation m2) := by
  refine ⟨?_, ?_, fun m1 m2 h => by cases h⟩
  · intro lid h0 h1
    unfold SourceNode.compute_flows
    rw [h0, h1]
    rfl
  · intro h
    unfold SourceNode.compute_flows
    by_cases hin : node.incoming_links.length > 0
    · exact ⟨_, by rw [if_pos hin]⟩
    · have hne : node.outgoing_links.length ≠ 1 := by
        rcases h with h | h
        · exact absurd (List.length_pos.mpr h) hin
        · exact h
      exact ⟨_, by rw [if_neg hin, if_pos hne]⟩

/-- Witness for C7: a source with inflow 1200 writes 1200 to its outgoing
link even though the supply of that link is only 600, and a source with two
outgoing links fails with a topology error distinct from the conservation
error. -/
theorem source_compute_flows_spec_witness :
    (∃ s2, (SourceNode.mk [] [1] 1200).compute_flows demoHeapClip = .ok s2 ∧
      (s2.getD 1 default).upstream_flow = 1200) ∧
    (∃ msg, (SourceNode.mk [] [0, 1] 1200).compute_flows demoHeapClip
      = .error (.topology msg)) ∧
    (CtmError.topology "Source nodes must have exactly one outgoing link."
      ≠ CtmError.conservation "Singularity detected in node!") := by
  have h1 := (source_compute_flows_spec (SourceNode.mk [] [1] 1200) demoHeapClip).1 1 rfl rfl
  refine ⟨⟨_, h1, ?_⟩,
    (source_compute_flows_spec (SourceNode.mk [] [0, 1] 1200) demoHeapClip).2.1
      (Or.inr (by norm_num)),
    (source_compute_flows_spec (SourceNode.mk [] [0, 1] 1200) demoHeapClip).2.2 _ _⟩
  rw [getD_modifyAt_self _ 1 _ (by norm_num [demoHeapClip])]

/-! Claim C8: zero density incoming links. -/

/-- C8: on a heap whose incoming links have positive diagram parameters and
nonnegative densities, a zero-density incoming link yields sending demand
exactly `0` (the `density > 0` guard avoids the division), and
`Node.compute_flows` never fails with a division error: every
supply-over-provisional-inflow scaling quotient of the capacity-limiting
pass is a total numpy division that raises nothing. -/
theorem zero_density_demand_no_division (node : Node) (s : List Link)
    (hv : ∀ lid ∈ node.incoming_links,
      0 < (s.getD lid default).fundamental_diagram.flow_capacity ∧
        0 < (s.getD lid default).fundamental_diagram.critical_density ∧
        0 ≤ (s.getD lid default).density) :
    (∀ lid ∈ node.incoming_links, (s.getD lid default).density = 0 →
      (s.getD lid default).sendingDemand = .ok 0) ∧
    (∀ msg, node.compute_flows s ≠ .error (.zeroDivision msg)) := by
  constructor
  · intro lid hm h0
    unfold Link.sendingDemand
    rw [if_neg (by rw [h0]; exact lt_irrefl 0), h0]
    norm_num
  · intro msg hc
    have hdm := demandsOf_eq_ok node.incoming_links s (fun lid hm =>
      sendingDemand_eq_ok _ (hv lid hm).1 (hv lid hm).2.1 (hv lid hm).2.2)
    simp only [Node.compute_flows, hdm] at hc
    split at hc <;> simp at hc

/-- Zero-density heap for the C8 witness. -/
def demoZeroHeap : List Link := [demoLink 0, demoLink 0, demoLink 0, demoLink 0]

/-- Witness for C8 at the concrete two-in two-out node over an all-zero
heap, where every provisional inflow is zero so every scaling quotient of
the capacity-limiting pass divides by zero. -/
theorem zero_density_demand_no_division_witness :
    (∀ lid ∈ demoNode.incoming_links,
      0 < (demoZeroHeap.getD lid default).fundamental_diagram.flow_capacity ∧
        0 < (demoZeroHeap.getD lid default).fundamental_diagram.critical_density ∧
        0 ≤ (demoZeroHeap.getD lid default).density) ∧
    (demoZeroHeap.getD 0 default).sendingDemand = .ok 0 ∧
    (∀ msg, demoNode.compute_flows demoZeroHeap ≠ .error (.zeroDivision msg)) := by
  have hv : ∀ lid ∈ demoNode.incoming_links,
      0 < (demoZeroHeap.getD lid default).fundamental_diagram.flow_capacity ∧
        0 < (demoZeroHeap.getD lid default).fundamental_diagram.critical_density ∧
        0 ≤ (demoZeroHeap.getD lid default).density := by
    intro lid hm
    fin_cases hm <;> norm_num [demoZeroHeap, demoLink, demoFd]
  refine ⟨hv, ?_, (zero_density_demand_no_division demoNode demoZeroHeap hv).2⟩
  exact (zero_density_demand_no_division demoNode demoZeroHeap hv).1 0
    (by norm_num [demoNode]) (by norm_num [demoZeroHeap, demoLink])

/-! Claim C9: frame effects of flow resolution. -/

/-- Frame relation between two link heaps: same length, and every link keeps
its density, length and fundamental diagram. -/
def FrameEffects (s s2 : List Link) : Prop :=
  s2.length = s.length ∧
    ∀ j : Nat, (s2.getD j default).density = (s.getD j default).density ∧
      (s2.getD j default).length = (s.getD j default).length ∧
      (s2.getD j default).fundamental_diagram = (s.getD j default).fundamental_diagram

theorem ordinary_frame (node : Node) (s s2 : List Link)
    (h : node.compute_flows s = .ok s2) :
    FrameEffects s s2 ∧ ∀ j, j ∉ node.incoming_links → j ∉ node.outgoing_links →
      s2.getD j default = s.getD j default := by
  simp only [Node.compute_flows] at h
  split at h
  · cases h
  · split at h
    · cases h
    · cases h
      refine ⟨⟨flowWrites_length _ _ _, fun j => ?_⟩, fun j hjin hjout => ?_⟩
      · unfold flowWrites
        exact ⟨by rw [(frame_writeUpstream _ _ j).1, (frame_writeDownstream _ _ j).1],
          by rw [(frame_writeUpstream _ _ j).2.1, (frame_writeDownstream _ _ j).2.1],
          by rw [(frame_writeUpstream _ _ j).2.2.1, (frame_writeDownstream _ _ j).2.2.1]⟩
      · unfold flowWrites writeUpstream writeDownstream
        rw [getD_writeWith_zip_notMem _ _ _ _ j hjout,
          getD_writeWith_zip_notMem _ _ _ _ j hjin]

theorem source_frame (node : SourceNode) (s s2 : List Link)
    (h : node.compute_flows s = .ok s2) :
    FrameEffects s s2 ∧ ∀ j, j ∉ node.outgoing_links →
      s2.getD j default = s.getD j default := by
  unfold SourceNode.compute_flows at h
  split at h
  · cases h
  · split at h
    · cases h
    · next hlen1 =>
      cases h
      obtain ⟨x, hx⟩ := List.length_eq_one.mp (not_ne_iff.mp hlen1)
      refine ⟨⟨modifyAt_length _ _ _, fun j => ?_⟩, fun j hj => ?_⟩
      · exact ⟨getD_modifyAt_proj (fun l => l.density)
            (fun l => { l with upstream_flow := node.inflow }) (fun _ => rfl) _ j s,
          getD_modifyAt_proj (fun l => l.length)
            (fun l => { l with upstream_flow := node.inflow }) (fun _ => rfl) _ j s,
          getD_modifyAt_proj (fun l => l.fundamental_diagram)
            (fun l => { l with upstream_flow := node.inflow }) (fun _ => rfl) _ j s⟩
      · have hj2 : j ≠ node.outgoing_links.getD 0 0 := by
          rw [hx] at hj ⊢
          simp only [List.getD_cons_zero]
          exact fun hc => hj (hc ▸ List.mem_cons_self x [])
        exact getD_modifyAt_ne _ _ j s hj2

theorem sink_frame (node : SinkNode) (s s2 : List Link)
    (h : node.compute_flows s = .ok s2) :
    FrameEffects s s2 ∧ ∀ j, j ∉ node.incoming_links →
      s2.getD j default = s.getD j default := by
  unfold SinkNode.compute_flows at h
  split at h
  · cases h
  · split at h
    · cases h
    · next hlen1 =>
      split at h
      · cases h
      · next v hv =>
        cases h
        obtain ⟨x, hx⟩ := List.length_eq_one.mp (not_ne_iff.mp hlen1)
        refine ⟨⟨modifyAt_length _ _ _, fun j => ?_⟩, fun j hj => ?_⟩
        · exact ⟨getD_modifyAt_proj (fun l => l.density)
              (fun l => { l with downstream_flow := v }) (fun _ => rfl) _ j s,
            getD_modifyAt_proj (fun l => l.length)
              (fun l => { l with downstream_flow := v }) (fun _ => rfl) _ j s,
            getD_modifyAt_proj (fun l => l.fundamental_diagram)
              (fun l => { l with downstream_flow := v }) (fun _ => rfl) _ j s⟩
        · have hj2 : j ≠ node.incoming_links.getD 0 0 := by
            rw [hx] at hj ⊢
            simp only [List.getD_cons_zero]
            exact fun hc => hj (hc ▸ List.mem_cons_self x [])
          exact getD_modifyAt_ne _ _ j s hj2

theorem netNode_density_frame (node : NetNode) (s s2 : List Link)
    (h : node.compute_flows s = .ok s2) (j : Nat) :
    (s2.getD j default).density = (s.getD j default).density := by
  cases node with
  | ordinary n => exact ((ordinary_frame n s s2 h).1.2 j).1
  | source n => exact ((source_frame n s s2 h).1.2 j).1
  | sink n => exact ((sink_frame n s s2 h).1.2 j).1

theorem fold_density_frame (nodes : List NetNode) (s s2 : List Link)
    (h : nodes.foldlM (fun t node => NetNode.compute_flows node t) s = .ok s2) (j : Nat) :
    (s2.getD j default).density = (s.getD j default).density := by
  induction nodes generalizing s with
  | nil =>
    simp only [List.foldlM_nil] at h
    cases h
    rfl
  | cons nd nodes ih =>
    rw [List.foldlM_cons] at h
    cases hstep : NetNode.compute_flows nd s with
    | error e =>
      rw [hstep] at h
      cases h
    | ok t1 =>
      rw [hstep] at h
      exact (ih t1 h).trans (netNode_density_frame nd s t1 hstep j)

/-- C9: flow resolution of every node variant never modifies any density,
length or fundamental diagram of any link, and rewrites only the transient
flow fields of its own incident links, leaving every other link untouched;
consequently the node-resolution phase of `Network.step` leaves all
densities exactly as they were at the start of the step, densities changing
only in the subsequent link-update phase. -/
theorem compute_flows_frame_effects :
    (∀ (node : Node) (s s2 : List Link), node.compute_flows s = .ok s2 →
      FrameEffects s s2 ∧ ∀ j, j ∉ node.incoming_links → j ∉ node.outgoing_links →
        s2.getD j default = s.getD j default) ∧
    (∀ (node : SourceNode) (s s2 : List Link), node.compute_flows s = .ok s2 →
      FrameEffects s s2 ∧ ∀ j, j ∉ node.outgoing_links →
        s2.getD j default = s.getD j default) ∧
    (∀ (node : SinkNode) (s s2 : List Link), node.compute_flows s = .ok s2 →
      FrameEffects s s2 ∧ ∀ j, j ∉ node.incoming_links →
        s2.getD j default = s.getD j default) ∧
    (∀ (nodes : List NetNode) (s s2 : List Link),
      nodes.foldlM (fun t node => NetNode.compute_flows node t) s = .ok s2 →
      ∀ j, (s2.getD j default).density = (s.getD j default).density) :=
  ⟨ordinary_frame, source_frame, sink_frame, fold_density_frame⟩

/-- Witness for C9: a source writing inflow 1200 to link 0 keeps the density
of link 0 and leaves link 1 entirely untouched. -/
theorem compute_flows_frame_effects_witness :
    (SourceNode.mk [] [0] 1200).compute_flows demoHeapFree
        = .ok [Link.mk demoFd 9 1 1200 0, demoLink 0] ∧
      (([Link.mk demoFd 9 1 1200 0, demoLink 0].getD 0 default).density
          = (demoHeapFree.getD 0 default).density) ∧
      ([Link.mk demoFd 9 1 1200 0, demoLink 0].getD 1 default
          = demoHeapFree.getD 1 default) :=
  ⟨rfl,
    ((compute_flows_frame_effects.2.1 (SourceNode.mk [] [0] 1200) demoHeapFree
      [Link.mk demoFd 9 1 1200 0, demoLink 0] rfl).1.2 0).1,
    (compute_flows_frame_effects.2.1 (SourceNode.mk [] [0] 1200) demoHeapFree
      [Link.mk demoFd 9 1 1200 0, demoLink 0] rfl).2 1 (by norm_num)⟩

/-! Claim C10: the simulation driver. -/

theorem simulation_step_ok (sim sim2 : Simulation) (h : sim.step = .ok sim2) :
    sim2.time = sim.time + sim.step_size ∧ sim2.start_time = sim.start_time ∧
      sim2.end_time = sim.end_time ∧ sim2.step_size = sim.step_size ∧
      sim.net.step sim.step_size = .ok sim2.net := by
  unfold Simulation.step at h
  split at h
  · cases h
  · next net hnet =>
    cases h
    exact ⟨rfl, rfl, rfl, rfl, hnet⟩

theorem simulation_stepN_time (k : Nat) (sim sim2 : Simulation)
    (h : Simulation.stepN k sim = .ok sim2) :
    sim2.time = sim.time + k * sim.step_size ∧ sim2.step_size = sim.step_size := by
  induction k generalizing sim with
  | zero =>
    simp only [Simulation.stepN] at h
    cases h
    simp
  | succ k ih =>
    simp only [Simulation.stepN] at h
    split at h
    · cases h
    · next s1 hstep =>
      obtain ⟨ht, hs⟩ := ih s1 h
      obtain ⟨h1, _, _, h4, _⟩ := simulation_step_ok sim s1 hstep
      constructor
      · rw [ht, h1, h4]
        push_cast
        ring
      · rw [hs, h4]

/-- C10: `Simulation.step` increments the simulated time by exactly the step
size and performs exactly one network step with that step size; it leaves
`start_time`, `end_time` and `step_size` unchanged and never consults
`end_time`; with a positive step size, repeated calls advance the time
strictly monotonically by `k * step_size` and past `end_time` without any
stopping condition. -/
theorem simulation_step_spec (sim : Simulation) :
    (∀ sim2, sim.step = .ok sim2 →
      sim2.time = sim.time + sim.step_size ∧ sim2.start_time = sim.start_time ∧
        sim2.end_time = sim.end_time ∧ sim2.step_size = sim.step_size ∧
        sim.net.step sim.step_size = .ok sim2.net) ∧
    (∀ e : ℚ, Simulation.step { sim with end_time := e }
      = Except.map (fun r => { r with end_time := e }) sim.step) ∧
    (∀ k (sim2 : Simulation), Simulation.stepN k sim = .ok sim2 →
      sim2.time = sim.time + k * sim.step_size) ∧
    (0 < sim.step_size → ∀ sim2, sim.step = .ok sim2 → sim.time < sim2.time) ∧
    (0 < sim.step_size → ∀ k (sim2 : Simulation), Simulation.stepN k sim = .ok sim2 →
      sim.end_time < sim.time + k * sim.step_size → sim.end_time < sim2.time) := by
  refine ⟨fun sim2 h => simulation_step_ok sim sim2 h, ?_,
    fun k sim2 h => (simulation_stepN_time k sim sim2 h).1,
    fun hpos sim2 h => ?_,
    fun hpos k sim2 h hend => ?_⟩
  · intro e
    cases sim with
    | mk net st en tm ss =>
      unfold Simulation.step
      cases hnet : net.step ss <;> simp [hnet, Except.map]
  · rw [(simulation_step_ok sim sim2 h).1]
    linarith
  · rw [(simulation_stepN_time k sim sim2 h).1]
    exact hend

/-- Concrete simulation over the empty network for the C10 witness. -/
def demoSim : Simulation := ⟨⟨[], []⟩, 0, 24, 0, 1/4⟩

/-- Witness for C10: two driver steps of the empty-network simulation
advance the clock by exactly two step sizes, and one step strictly
increases the time. -/
theorem simulation_step_spec_witness :
    (0 < demoSim.step_size) ∧
      (∃ sim2, Simulation.stepN 2 demoSim = .ok sim2 ∧
        sim2.time = demoSim.time + (2 : Nat) * demoSim.step_size) ∧
      (∃ sim1, demoSim.step = .ok sim1 ∧ demoSim.time < sim1.time) := by
  have hpos : 0 < demoSim.step_size := by norm_num [demoSim]
  have h2 : Simulation.stepN 2 demoSim = .ok ⟨⟨[], []⟩, 0, 24, 0 + 1/4 + 1/4, 1/4⟩ := rfl
  have h1 : demoSim.step = .ok ⟨⟨[], []⟩, 0, 24, 0 + 1/4, 1/4⟩ := rfl
  exact ⟨hpos, ⟨_, h2, (simulation_step_spec demoSim).2.2.1 2 _ h2⟩,
    ⟨_, h1, (simulation_step_spec demoSim).2.2.2.1 hpos _ h1⟩⟩

/-! Claim C5: conservation over a closed loop network. -/

theorem demandValue_congr (l1 l2 : Link)
    (hf : l1.fundamental_diagram = l2.fundamental_diagram) (hd : l1.density = l2.density) :
    l1.demandValue = l2.demandValue := by
  unfold Link.demandValue Link.free_flow_speed Link.flow_capacity
  rw [hf, hd]

theorem sendingDemand_congr (l1 l2 : Link)
    (hf : l1.fundamental_diagram = l2.fundamental_diagram) (hd : l1.density = l2.density) :
    l1.sendingDemand = l2.sendingDemand := by
  unfold Link.sendingDemand Link.free_flow_speed Link.flow_capacity
  rw [hf, hd]

theorem supply_congr (l1 l2 : Link)
    (hf : l1.fundamental_diagram = l2.fundamental_diagram) (hd : l1.density = l2.density) :
    l1.supply = l2.supply := by
  unfold Link.supply Link.flow_capacity Link.congestion_wave_speed Link.jam_density
  rw [hf, hd]

theorem oneOneVal_congr (r s : List Link) (a b : Nat)
    (hfa : (r.getD a default).fundamental_diagram = (s.getD a default).fundamental_diagram)
    (hda : (r.getD a default).density = (s.getD a default).density)
    (hfb : (r.getD b default).fundamental_diagram = (s.getD b default).fundamental_diagram)
    (hdb : (r.getD b default).density = (s.getD b default).density) :
    oneOneVal r a b = oneOneVal s a b := by
  unfold oneOneVal
  rw [demandValue_congr _ _ hfa hda, supply_congr _ _ hfb hdb]

theorem validLink_getD (s : List Link) (k : Nat) (hk : k < s.length)
    (hv : ∀ l ∈ s, ValidLink l) : ValidLink (s.getD k default) := by
  apply hv
  rw [List.getD_eq_getElem s default hk]
  exact List.getElem_mem hk

theorem succ_mod_inj (L i k : Nat) (hi : i < L) (hk : k < L)
    (h : (i + 1) % L = (k + 1) % L) : i = k := by
  rcases Nat.lt_or_ge (i + 1) L with h1 | h1
  · rcases Nat.lt_or_ge (k + 1) L with h2 | h2
    · rw [Nat.mod_eq_of_lt h1, Nat.mod_eq_of_lt h2] at h
      omega
    · have hk1 : k + 1 = L := by omega
      rw [Nat.mod_eq_of_lt h1, hk1, Nat.mod_self] at h
      omega
  · have hi1 : i + 1 = L := by omega
    rcases Nat.lt_or_ge (k + 1) L with h2 | h2
    · rw [hi1, Nat.mod_self, Nat.mod_eq_of_lt h2] at h
      omega
    · omega

/-- Flow value resolved by ring node `i`, read off the densities of the
start-of-step heap `s`. -/
def ringFlow (s : List Link) (L i : Nat) : ℚ := oneOneVal s i ((i + 1) % L)

/-- Invariant of the node-resolution phase over a ring of `L` links after
the first `k` ring nodes have resolved: densities, lengths and diagrams are
those of the start-of-step heap `s`; links `0 .. k-1` carry their resolved
downstream flows, links `(i+1) % L` for `i < k` carry the resolved upstream
flows, and all other flow fields are still those of `s`. -/
def RingInv (s : List Link) (L k : Nat) (r : List Link) : Prop :=
  r.length = L ∧
    (∀ j : Nat, (r.getD j default).fundamental_diagram
        = (s.getD j default).fundamental_diagram ∧
      (r.getD j default).density = (s.getD j default).density ∧
      (r.getD j default).length = (s.getD j default).length) ∧
    (∀ i : Nat, i < k → (r.getD i default).downstream_flow = ringFlow s L i) ∧
    (∀ i : Nat, k ≤ i → (r.getD i default).downstream_flow
      = (s.getD i default).downstream_flow) ∧
    (∀ i : Nat, i < k → (r.getD ((i + 1) % L) default).upstream_flow = ringFlow s L i) ∧
    (∀ i : Nat, k ≤ i → i < L →
      (r.getD ((i + 1) % L) default).upstream_flow
        = (s.getD ((i + 1) % L) default).upstream_flow)

theorem ring_node_step (s : List Link) (L k : Nat) (r : List Link)
    (hL : s.length = L) (hk : k < L)
    (hv : ∀ l ∈ s, ValidLink l)
    (hinv : RingInv s L k r) :
    NetNode.compute_flows (ringNode L k) r
        = .ok (modifyAt (fun l => { l with upstream_flow := ringFlow s L k }) ((k + 1) % L)
            (modifyAt (fun l => { l with downstream_flow := ringFlow s L k }) k r)) ∧
      RingInv s L (k + 1)
        (modifyAt (fun l => { l with upstream_flow := ringFlow s L k }) ((k + 1) % L)
          (modifyAt (fun l => { l with downstream_flow := ringFlow s L k }) k r)) := by
  obtain ⟨hrl, hframe, hdlt, hdge, hult, huge⟩ := hinv
  have hL0 : 0 < L := by omega
  have hkr : k < r.length := by rw [hrl]; exact hk
  have hmod : (k + 1) % L < L := Nat.mod_lt _ hL0
  have hmodr : (k + 1) % L < r.length := by rw [hrl]; exact hmod
  have hvk : ValidLink (s.getD k default) := validLink_getD s k (by rw [hL]; exact hk) hv
  have hdem : (r.getD k default).sendingDemand = .ok ((r.getD k default).demandValue) := by
    apply sendingDemand_eq_ok
    · rw [(hframe k).1]; exact hvk.1
    · rw [(hframe k).1]; exact hvk.2.1
    · rw [(hframe k).2.1]; exact hvk.2.2.2.1
  have hval : oneOneVal r k ((k + 1) % L) = ringFlow s L k :=
    oneOneVal_congr r s k ((k + 1) % L) (hframe k).1 (hframe k).2.1
      (hframe ((k + 1) % L)).1 (hframe ((k + 1) % L)).2.1
  have hone := one_one_compute k ((k + 1) % L) r hkr hmodr hdem
  rw [hval] at hone
  refine ⟨hone, ?_, fun j => ?_, fun i hi => ?_, fun i hi => ?_, fun i hi => ?_,
    fun i hi hiL => ?_⟩
  · rw [modifyAt_length, modifyAt_length, hrl]
  · refine ⟨?_, ?_, ?_⟩
    · rw [getD_modifyAt_proj (fun l => l.fundamental_diagram)
          (fun l => { l with upstream_flow := ringFlow s L k }) (fun _ => rfl) _ j,
        getD_modifyAt_proj (fun l => l.fundamental_diagram)
          (fun l => { l with downstream_flow := ringFlow s L k }) (fun _ => rfl) _ j]
      exact (hframe j).1
    · rw [getD_modifyAt_proj (fun l => l.density)
          (fun l => { l with upstream_flow := ringFlow s L k }) (fun _ => rfl) _ j,
        getD_modifyAt_proj (fun l => l.density)
          (fun l => { l with downstream_flow := ringFlow s L k }) (fun _ => rfl) _ j]
      exact (hframe j).2.1
    · rw [getD_modifyAt_proj (fun l => l.length)
          (fun l => { l with upstream_flow := ringFlow s L k }) (fun _ => rfl) _ j,
        getD_modifyAt_proj (fun l => l.length)
          (fun l => { l with downstream_flow := ringFlow s L k }) (fun _ => rfl) _ j]
      exact (hframe j).2.2
  · rw [getD_modifyAt_proj (fun l => l.downstream_flow)
      (fun l => { l with upstream_flow := ringFlow s L k }) (fun _ => rfl) _ i]
    rcases Nat.lt_or_ge i k with hik | hik
    · rw [getD_modifyAt_ne _ k i r (by omega)]
      exact hdlt i hik
    · have hik2 : i = k := by omega
      subst hik2
      rw [getD_modifyAt_self _ i r hkr]
  · rw [getD_modifyAt_proj (fun l => l.downstream_flow)
      (fun l => { l with upstream_flow := ringFlow s L k }) (fun _ => rfl) _ i,
      getD_modifyAt_ne _ k i r (by omega)]
    exact hdge i (by omega)
  · rcases Nat.lt_or_ge i k with hik | hik
    · have hne : (i + 1) % L ≠ (k + 1) % L := fun hc =>
        absurd (succ_mod_inj L i k (by omega) hk hc) (by omega)
      rw [getD_modifyAt_ne _ ((k + 1) % L) _ _ hne,
        getD_modifyAt_proj (fun l => l.upstream_flow)
          (fun l => { l with downstream_flow := ringFlow s L k }) (fun _ => rfl) k _]
      exact hult i hik
    · have hik2 : i = k := by omega
      subst hik2
      rw [getD_modifyAt_self _ ((i + 1) % L) _ (by rw [modifyAt_length]; exact hmodr)]
  · have hne : (i + 1) % L ≠ (k + 1) % L := fun hc =>
      absurd (succ_mod_inj L i k hiL hk hc) (by omega)
    rw [getD_modifyAt_ne _ ((k + 1) % L) _ _ hne,
      getD_modifyAt_proj (fun l => l.upstream_flow)
        (fun l => { l with downstream_flow := ringFlow s L k }) (fun _ => rfl) k _]
    exact huge i (by omega) hiL

theorem ring_fold (s : List Link) (L : Nat) (hL : s.length = L)
    (hv : ∀ l ∈ s, ValidLink l) :
    ∀ (c k : Nat), k + c = L → ∀ r, RingInv s L k r →
      ∃ r2, ((List.range' k c).map (ringNode L)).foldlM
          (fun t node => NetNode.compute_flows node t) r = .ok r2 ∧ RingInv s L L r2 := by
  intro c
  induction c with
  | zero =>
    intro k hkc r hinv
    have hkL : k = L := by omega
    exact ⟨r, by simp [List.foldlM]; rfl, hkL ▸ hinv⟩
  | succ c ih =>
    intro k hkc r hinv
    have hkL : k < L := by omega
    obtain ⟨hok, hinv2⟩ := ring_node_step s L k r hL hkL hv hinv
    obtain ⟨r2, hfold, hfin⟩ := ih (k + 1) (by omega) _ hinv2
    refine ⟨r2, ?_, hfin⟩
    rw [List.range'_succ, List.map_cons, List.foldlM_cons, hok]
    exact hfold

/-- Predecessor of a link index around a ring of `L` links. -/
def predL (L j : Nat) : Nat := if j = 0 then L - 1 else j - 1

theorem predL_lt (L j : Nat) (hL : 0 < L) (hj : j < L) : predL L j < L := by
  unfold predL
  split <;> omega

theorem succ_predL_mod (L j : Nat) (hj : j < L) : (predL L j + 1) % L = j := by
  unfold predL
  by_cases h0 : j = 0
  · subst h0
    rw [if_pos rfl, show L - 1 + 1 = L by omega, Nat.mod_self]
  · rw [if_neg h0, show j - 1 + 1 = j by omega, Nat.mod_eq_of_lt hj]

theorem sum_pred_reindex (f : Nat → ℚ) (L : Nat) :
    ∑ j ∈ Finset.range L, f (predL L j) = ∑ j ∈ Finset.range L, f j := by
  cases L with
  | zero => simp
  | succ M =>
    rw [Finset.sum_range_succ' (fun j => f (predL (M + 1) j)) M, Finset.sum_range_succ f M]
    have h1 : ∀ j ∈ Finset.range M, f (predL (M + 1) (j + 1)) = f j := by
      intro j hj
      unfold predL
      norm_num
    have h2 : f (predL (M + 1) 0) = f M := by
      unfold predL
      norm_num
    rw [Finset.sum_congr rfl h1, h2]

/-- C5: over a closed loop network (the ring of its links, one ordinary
one-in one-out node between consecutive links, no sources and no sinks),
one `Network.step dt` with a stability-respecting positive `dt` succeeds
and leaves the total vehicle count, the sum of `density * length` over all
links, exactly unchanged; invariance across any number of steps follows by
iterating. -/
theorem ring_network_step_conserves (links : List Link) (dt : ℚ)
    (hv : ∀ l ∈ links, ValidLink l) (hdt : 0 < dt)
    (hcfl : ∀ l ∈ links,
      dt ≤ l.length / max l.free_flow_speed l.congestion_wave_speed) :
    ∃ net2, (ringNetwork links).step dt = .ok net2 ∧
      totalVehicles net2.links = totalVehicles links := by
  have hbase : RingInv links links.length 0 links :=
    ⟨rfl, fun j => ⟨rfl, rfl, rfl⟩, fun i hi => absurd hi (Nat.not_lt_zero i),
      fun i _ => rfl, fun i hi => absurd hi (Nat.not_lt_zero i), fun i _ _ => rfl⟩
  obtain ⟨r2, hfold, hfin⟩ := ring_fold links links.length rfl hv links.length 0
    (by omega) links hbase
  obtain ⟨hr2l, hframe, hdown, _, hup, _⟩ := hfin
  have hstep : (ringNetwork links).step dt
      = .ok { nodes := (List.range links.length).map (ringNode links.length),
              links := r2.map (fun l => l.update_state dt) } := by
    unfold Network.step ringNetwork
    rw [List.range_eq_range' links.length, hfold]
  refine ⟨_, hstep, ?_⟩
  show totalVehicles (r2.map (fun l => l.update_state dt)) = totalVehicles links
  unfold totalVehicles
  rw [List.map_map, list_map_sum_eq, list_map_sum_eq, hr2l]
  simp only [Function.comp]
  have hterm : ∀ j ∈ Finset.range links.length,
      ((r2.getD j default).update_state dt).density
          * ((r2.getD j default).update_state dt).length
        = (links.getD j default).density * (links.getD j default).length
          + dt * (ringFlow links links.length (predL links.length j)
            - ringFlow links links.length j) := by
    intro j hjm
    have hj : j < links.length := Finset.mem_range.mp hjm
    have hlen0 : (links.getD j default).length ≠ 0 :=
      ne_of_gt (validLink_getD links j hj hv).2.2.2.2.2
    have hupj : (r2.getD j default).upstream_flow
        = ringFlow links links.length (predL links.length j) := by
      have h := hup (predL links.length j) (predL_lt _ _ (by omega) hj)
      rwa [succ_predL_mod links.length j hj] at h
    have hdownj := hdown j hj
    have hud : ((r2.getD j default).update_state dt).density
        = (r2.getD j default).density + (dt / (r2.getD j default).length)
          * ((r2.getD j default).upstream_flow - (r2.getD j default).downstream_flow) := rfl
    have hul : ((r2.getD j default).update_state dt).length
        = (r2.getD j default).length := rfl
    rw [hud, hul, (hframe j).2.2, (hframe j).2.1, hupj, hdownj,
      add_mul, mul_right_comm, div_mul_cancel₀ dt hlen0]
  rw [Finset.sum_congr rfl hterm, Finset.sum_add_distrib]
  have hflow : ∑ j ∈ Finset.range links.length,
      dt * (ringFlow links links.length (predL links.length j)
        - ringFlow links links.length j) = 0 := by
    rw [← Finset.mul_sum, Finset.sum_sub_distrib,
      sum_pred_reindex (ringFlow links links.length) links.length, sub_self, mul_zero]
  rw [hflow, add_zero]

/-- Concrete two-link closed loop for the C5 witness. -/
def demoRing : List Link := [demoLink 30, demoLink 50]

/-- Witness for C5: one step of the two-link ring at the stability
respecting step `1/100` preserves the total vehicle count. -/
theorem ring_network_step_conserves_witness :
    ((∀ l ∈ demoRing, ValidLink l) ∧ 0 < (1/100 : ℚ) ∧
        (∀ l ∈ demoRing,
          (1/100 : ℚ) ≤ l.length / max l.free_flow_speed l.congestion_wave_speed)) ∧
      ∃ net2, (ringNetwork demoRing).step (1/100) = .ok net2 ∧
        totalVehicles net2.links = totalVehicles demoRing := by
  have hv : ∀ l ∈ demoRing, ValidLink l := by
    intro l hm
    fin_cases hm <;>
      norm_num [demoRing, demoLink, demoFd, ValidLink, Link.jam_density,
        FundamentalDiagram.jam_density]
  have hdt : 0 < (1/100 : ℚ) := by norm_num
  have hcfl : ∀ l ∈ demoRing,
      (1/100 : ℚ) ≤ l.length / max l.free_flow_speed l.congestion_wave_speed := by
    intro l hm
    fin_cases hm <;>
      norm_num [demoRing, demoLink, demoFd, Link.free_flow_speed, Link.congestion_wave_speed,
        FundamentalDiagram.free_flow_speed, max_def]
  exact ⟨⟨hv, hdt, hcfl⟩, ring_network_step_conserves demoRing (1/100) hv hdt hcfl⟩
